import Mathlib

/-!
Shallow embedding of `src/libs/dbdict.py`: a dictionary-like interface over a
single relational table keyed by one primary-key column.

The embedding models
* Python dicts as insertion-ordered association lists (`dictGet`, `dictSet`,
  `dictDel` reproduce `d[k]`, `d[k] = v` and `del d[k]`),
* the database table as a list of rows, each row an association list from
  column name to value (the primary-key column is an ordinary entry of the
  row),
* issued SQL statements as values of `Stmt`, collected in traces, and
* Python exceptions as values of `PyError` in `Except` results.

Keys and cell values both live in one type `α` (Python is untyped here); a
fetched cell is an `Option α`, `none` standing for SQL NULL / absent column.
-/

namespace DbDict

/-- Python dict lookup `d.get(k)` on an insertion-ordered association list. -/
def dictGet {κ β : Type} [DecidableEq κ] : List (κ × β) → κ → Option β
  | [], _ => none
  | (k', v) :: d, k => if k' = k then some v else dictGet d k

/-- Python dict assignment `d[k] = v`: overwrite the entry in place when the
key is present, otherwise append the new entry at the end. -/
def dictSet {κ β : Type} [DecidableEq κ] : List (κ × β) → κ → β → List (κ × β)
  | [], k, v => [(k, v)]
  | (k', v') :: d, k, v => if k' = k then (k', v) :: d else (k', v') :: dictSet d k v

/-- Python `del d[k]`. -/
def dictDel {κ β : Type} [DecidableEq κ] (d : List (κ × β)) (k : κ) : List (κ × β) :=
  d.filter (fun p => decide (p.1 ≠ k))

/-- Python exceptions that the modelled code can raise. -/
inductive PyError where
  | attributeError (msg : String)
  | operationalError (msg : String)
  | typeError (msg : String)
deriving DecidableEq, Repr

section Model

variable {α : Type} [DecidableEq α]

/-- A table row: a Python-dict-like mapping from column name to value.
The primary-key column is stored like any other column. -/
abbrev Row (α : Type) := List (String × α)

/-- The table contents: a list of rows. -/
abbrev DB (α : Type) := List (Row α)

/-- SQL statements issued by the code, in structural form: the column list and
the positional parameter list of each statement, in the order the code builds
them. -/
inductive Stmt (α : Type) where
  /-- `SELECT c1,...,cn FROM t WHERE pk=%s` with its bound parameters. -/
  | selectCols (cols : List String) (params : List α)
  /-- `UPDATE t SET c1=%s,... WHERE pk=%s` with its bound parameters
  (values in column order, then the key). -/
  | update (cols : List String) (params : List α)
  /-- `executemany` of `UPDATE t SET c1=%s,... WHERE pk=%s`, one parameter
  row per execution. -/
  | updateMany (cols : List String) (paramRows : List (List α))
  /-- `INSERT INTO t (c1,...,cn) VALUES (%s,...,%s)` with its bound
  parameters. -/
  | insert (cols : List String) (params : List α)
  /-- `connection.commit()`. -/
  | commit
deriving DecidableEq, Repr

/-- `WHERE pk = k` test for one row. -/
def rowMatches (pk : String) (k : α) (row : Row α) : Bool :=
  decide (dictGet row pk = some k)

/-- `SELECT ... WHERE pk=%s` then `fetchone()`: the first row whose
primary-key column equals `k`. -/
def dbFetch (pk : String) (db : DB α) (k : α) : Option (Row α) :=
  db.find? (rowMatches pk k)

/-- Apply the `SET c1=%s, c2=%s, ...` assignments of an UPDATE to one row,
left to right. -/
def applyAssigns (row : Row α) (assigns : List (String × α)) : Row α :=
  assigns.foldl (fun r cv => dictSet r cv.1 cv.2) row

/-- Execute `UPDATE t SET ... WHERE pk=%s`: every matching row gets the
assignments; rows that do not match are untouched (zero matches = no-op). -/
def dbUpdate (pk : String) (db : DB α) (k : α) (assigns : List (String × α)) : DB α :=
  db.map (fun row => if rowMatches pk k row then applyAssigns row assigns else row)

/-- Execute `INSERT INTO t ... VALUES ...` for the row `row`: the primary-key
constraint rejects a duplicate key (the driver raises an operational error),
otherwise the row is appended. -/
def dbInsert (pk : String) (db : DB α) (row : Row α) : Except PyError (DB α) :=
  match dictGet row pk with
  | none => .error (.operationalError "primary key column has no value")
  | some k =>
    if (dbFetch pk db k).isSome then
      .error (.operationalError "duplicate entry for primary key")
    else
      .ok (db ++ [row])

/-- `Table` from `dbdict.py`.  NOTE: `Table.__init__` accepts a `module`
argument but never stores it on `self`, so the embedded structure has no
`module` field; an access to `self.table.module` therefore raises
`AttributeError` (see `Pivot` reads below). -/
structure Table (α : Type) where
  name : String
  pk : String
  insert_only : Bool
deriving DecidableEq, Repr

/-- `Pivot` from `dbdict.py`: a view over a fixed ordered key list of a
table. -/
structure Pivot (α : Type) where
  table : Table α
  keys : List α
deriving DecidableEq, Repr

/-- The `keys` argument of `Table.__getitem__`: either a bare key or a tuple
of keys. -/
inductive KeysArg (α : Type) where
  | single (k : α)
  | tup (ks : List α)
deriving DecidableEq, Repr

/-- `if not isinstance(keys, tuple): keys=(keys,)`. -/
def normKeys : KeysArg α → List α
  | .single k => [k]
  | .tup ks => ks

/-- `Table.__getitem__`: returns `Pivot(self, keys)` after normalizing a bare
key to a one-element tuple.  The second component is the trace of statements
issued (none: the construction is pure). -/
def Table.getitem (t : Table α) (keys : KeysArg α) : Pivot α × List (Stmt α) :=
  (⟨t, normKeys keys⟩, [])

/-- The `cols` argument of `Pivot.__getitem__` / `Pivot.__setitem__`: a bare
column name or a tuple of column names. -/
inductive ColsArg where
  | single (c : String)
  | tup (cs : List String)
deriving DecidableEq, Repr

/-- `if not isinstance(cols, tuple): cols=(cols,)`. -/
def normCols : ColsArg → List String
  | .single c => [c]
  | .tup cs => cs

/-- Per-key result of `Pivot.__getitem__`:
`null` is Python `None` (missing row kept when no unwrap applies),
`scalar` is the unwrapped `row_values[0]` of a single-column fetch,
`tup` is the fetched row tuple. -/
inductive RowResult (α : Type) where
  | null
  | scalar (v : Option α)
  | tup (vs : List (Option α))
deriving DecidableEq, Repr

/-- Overall result of `Pivot.__getitem__` after the collapsing at the end:
`null` for zero keys, `one` for exactly one key (the per-key result returned
directly), `many` for two or more keys (the tuple of per-key results). -/
inductive GetResult (α : Type) where
  | null
  | one (r : RowResult α)
  | many (rs : List (RowResult α))
deriving DecidableEq, Repr

/-- The successful per-key value of the `Pivot.__getitem__` loop body for key
`k`: fetch the row, and when a single column was requested with
`keep_tuples=False`, unwrap the one-element row to the scalar cell. -/
def rowResultOf (t : Table α) (db : DB α) (cols : List String) (keepTuples : Bool)
    (k : α) : RowResult α :=
  match dbFetch t.pk db k with
  | none => .null
  | some row =>
    let vs := cols.map (fun c => dictGet row c)
    if keepTuples = false ∧ cols.length = 1 then .scalar vs.headI else .tup vs

/-- One iteration of the `Pivot.__getitem__` loop: on a missing row with a
single-column projection and `keep_tuples=False` the code executes
`raise self.table.module.OperationalError(...)`, but `Table.__init__` never
stored `module`, so evaluating `self.table.module` raises `AttributeError`. -/
def pivotGetRow (t : Table α) (db : DB α) (cols : List String) (keepTuples : Bool)
    (k : α) : Except PyError (RowResult α) :=
  if keepTuples = false ∧ cols.length = 1 ∧ dbFetch t.pk db k = none then
    .error (.attributeError "Table object has no attribute module")
  else
    .ok (rowResultOf t db cols keepTuples k)

/-- The `for key in self.keys` loop of `Pivot.__getitem__`: one
`SELECT cols ... WHERE pk=%s` per key, stopping at the first raised error. -/
def pivotGetLoop (t : Table α) (db : DB α) (cols : List String) (keepTuples : Bool) :
    List α → Except PyError (List (RowResult α)) × List (Stmt α)
  | [] => (.ok [], [])
  | k :: ks =>
    let stmt := Stmt.selectCols cols [k]
    match pivotGetRow t db cols keepTuples k with
    | .error e => (.error e, [stmt])
    | .ok r =>
      let rest := pivotGetLoop t db cols keepTuples ks
      (rest.1.map (fun rs => r :: rs), stmt :: rest.2)

/-- `Pivot.__getitem__(cols, keep_tuples)`: loop over the keys, then collapse:
one value is returned directly, an empty list becomes `None`, otherwise the
tuple of values is returned. -/
def Pivot.getitem (p : Pivot α) (db : DB α) (cols : ColsArg) (keepTuples : Bool) :
    Except PyError (GetResult α) × List (Stmt α) :=
  let r := pivotGetLoop p.table db (normCols cols) keepTuples p.keys
  (r.1.map (fun rs =>
    match rs with
    | [] => .null
    | [r] => .one r
    | rs => .many rs), r.2)

/-- `Pivot.__len__`: `rows = self.__getitem__(self.table.pk, True)`, then
`isinstance(rows, list)` is always false (`__getitem__` returns a tuple, a
scalar or `None`), so the code returns 0 when `rows` is `None` (zero keys, or
one key with a missing row) and 1 otherwise.  The error branch is
unreachable because `keep_tuples=True` never raises. -/
def Pivot.len (p : Pivot α) (db : DB α) : Nat :=
  match (Pivot.getitem p db (.single p.table.pk) true).1 with
  | .ok .null => 0
  | .ok (.one .null) => 0
  | .ok (.one _) => 1
  | .ok (.many _) => 1
  | .error _ => 0

/-- `Table.__setitem__(key, values)`: `if self[key] and not self.insert_only`
issues the single-key primary-key probe (truthiness of the fresh `Pivot` goes
through `Pivot.__len__`), then either an UPDATE of the given columns plus a
commit, or `values[self.pk] = key` followed by an INSERT of the mutated dict
plus a commit; a failed INSERT (duplicate key) raises before the commit.
Returns (result, new table contents, the `values` dict after the call — the
code mutates it in place on the insert path — and the statement trace). -/
def Table.setitem (t : Table α) (db : DB α) (key : α) (values : Row α) :
    Except PyError Unit × DB α × Row α × List (Stmt α) :=
  let probeTrace := (Pivot.getitem (⟨t, [key]⟩ : Pivot α) db (.single t.pk) true).2
  if Pivot.len (⟨t, [key]⟩ : Pivot α) db ≠ 0 ∧ t.insert_only = false then
    (.ok (), dbUpdate t.pk db key values, values,
      probeTrace ++ [.update (values.map Prod.fst) (values.map Prod.snd ++ [key]), .commit])
  else
    let values' := dictSet values t.pk key
    let stmt := Stmt.insert (values'.map Prod.fst) (values'.map Prod.snd)
    match dbInsert t.pk db values' with
    | .error e => (.error e, db, values', probeTrace ++ [stmt])
    | .ok db' => (.ok (), db', values', probeTrace ++ [stmt, .commit])

/-- A Python value as passed to `Pivot.__setitem__`: a scalar or a (possibly
nested) tuple. -/
inductive Py (α : Type) where
  | atom (a : α)
  | tupl (xs : List (Py α))

/-- The two normalization steps of `Pivot.__setitem__`:
`if len(self.keys) == 1: values=(values,)` and
`if not isinstance(cols, tuple): values=((v,) for v in values); cols=(cols,)`.
Iterating a non-tuple value is a `TypeError` (`none`). -/
def normVals (keys : List α) (cols : ColsArg) (values : Py α) : Option (List (Py α)) :=
  let v1 : Py α := if keys.length = 1 then .tupl [values] else values
  match cols, v1 with
  | .single _, .tupl xs => some (xs.map (fun x => .tupl [x]))
  | .single _, .atom _ => none
  | .tup _, .tupl xs => some xs
  | .tup _, .atom _ => none

/-- A parameter row bound by `executemany` must be a flat tuple of scalars. -/
def rowAtoms : Py α → Option (List α)
  | .atom _ => none
  | .tupl xs => xs.mapM (fun x => match x with | .atom a => some a | .tupl _ => none)

/-- The normalized batch of `Pivot.__setitem__`: zip the normalized values
with the keys (Python `zip` truncates to the shorter), and require each
parameter row to be a flat tuple with one value per column. -/
def pivotSetRows (keys : List α) (cols : ColsArg) (values : Py α) :
    Option (List (List α × α)) :=
  (normVals keys cols values).bind (fun batch =>
    (batch.zip keys).mapM (fun rk =>
      (rowAtoms rk.1).bind (fun ra =>
        if ra.length = (normCols cols).length then some (ra, rk.2) else none)))

/-- `Pivot.__setitem__(cols, values)`: normalize, then `executemany` one
batched UPDATE (one execution per key, assignments zipped from the column
list and that key's value row) and commit once. -/
def Pivot.setitem (p : Pivot α) (db : DB α) (cols : ColsArg) (values : Py α) :
    Except PyError Unit × DB α × List (Stmt α) :=
  match pivotSetRows p.keys cols values with
  | none => (.error (.typeError "invalid values shape"), db, [])
  | some rows =>
    (.ok (),
     rows.foldl (fun d rk => dbUpdate p.table.pk d rk.2 ((normCols cols).zip rk.1)) db,
     [.updateMany (normCols cols) (rows.map (fun rk => rk.1 ++ [rk.2])), .commit])

/-- The per-key mapping `Pivot.to_dict` builds for key `k`: the full row
(`SELECT *`) as a dict with the primary-key entry deleted, or the empty dict
when the row is missing. -/
def toDictRow (t : Table α) (db : DB α) (k : α) : Row α :=
  match dbFetch t.pk db k with
  | none => []
  | some row => dictDel row t.pk

/-- The `rows` dict built by the `Pivot.to_dict` loop (`rows[key] = ...` for
each key in order). -/
def toDictRows (t : Table α) (db : DB α) : List α → List (α × Row α) → List (α × Row α)
  | [], acc => acc
  | k :: ks, acc => toDictRows t db ks (dictSet acc k (toDictRow t db k))

/-- Result of `Pivot.to_dict`: either the key-to-mapping dict, or (when it
has exactly one entry and `keep_key` is false) that entry's mapping alone. -/
inductive ToDictResult (α : Type) where
  | keyed (m : List (α × Row α))
  | flat (m : Row α)
deriving DecidableEq, Repr

/-- `Pivot.to_dict(keep_key)`: build the `rows` dict, then
`if not keep_key and len(rows) == 1: return rows.popitem()[1]`. -/
def Pivot.toDict (p : Pivot α) (db : DB α) (keepKey : Bool) : ToDictResult α :=
  let rows := toDictRows p.table db p.keys []
  if keepKey = false then
    match rows with
    | [(_, m)] => .flat m
    | _ => .keyed rows
  else .keyed rows

end Model

/-! ## Lemmas about the Python-dict model -/

theorem dictGet_dictSet_self {κ β : Type} [DecidableEq κ] (d : List (κ × β)) (k : κ) (v : β) :
    dictGet (dictSet d k v) k = some v := by
  induction d with
  | nil => simp [dictGet, dictSet]
  | cons p d ih =>
    obtain ⟨k', v'⟩ := p
    by_cases h : k' = k <;> simp [dictGet, dictSet, h, ih]

theorem dictGet_dictSet_ne {κ β : Type} [DecidableEq κ] (d : List (κ × β)) (k k' : κ) (v : β)
    (h : k' ≠ k) : dictGet (dictSet d k v) k' = dictGet d k' := by
  have h' : ¬(k = k') := fun hh => h hh.symm
  induction d with
  | nil => simp [dictGet, dictSet, h']
  | cons p d ih =>
    obtain ⟨a, b⟩ := p
    by_cases ha : a = k
    · subst ha
      simp [dictGet, dictSet, h']
    · simp [dictGet, dictSet, ha, ih]

theorem dictSet_of_get_none {κ β : Type} [DecidableEq κ] (d : List (κ × β)) (k : κ) (v : β)
    (h : dictGet d k = none) : dictSet d k v = d ++ [(k, v)] := by
  induction d with
  | nil => simp [dictSet]
  | cons p d ih =>
    obtain ⟨a, b⟩ := p
    by_cases ha : a = k
    · simp [dictGet, ha] at h
    · simp [dictGet, ha] at h
      simp [dictSet, ha, ih h]

theorem dictSet_of_get_self {κ β : Type} [DecidableEq κ] (d : List (κ × β)) (k : κ) (v : β)
    (h : dictGet d k = some v) : dictSet d k v = d := by
  induction d with
  | nil => simp [dictGet] at h
  | cons p d ih =>
    obtain ⟨a, b⟩ := p
    by_cases ha : a = k
    · simp [dictGet, ha] at h
      simp [dictSet, ha, h]
    · simp [dictGet, ha] at h
      simp [dictSet, ha, ih h]

theorem dictSet_ne_of_get_none {κ β : Type} [DecidableEq κ] (d : List (κ × β)) (k : κ) (v : β)
    (h : dictGet d k = none) : dictSet d k v ≠ d := by
  rw [dictSet_of_get_none d k v h]
  intro hc
  have := congrArg List.length hc
  simp at this

theorem dictGet_isSome_iff_mem {κ β : Type} [DecidableEq κ] (d : List (κ × β)) (k : κ) :
    (dictGet d k).isSome ↔ k ∈ d.map Prod.fst := by
  induction d with
  | nil => simp [dictGet]
  | cons p d ih =>
    obtain ⟨a, b⟩ := p
    by_cases ha : a = k
    · subst ha
      simp [dictGet]
    · simp [dictGet, ha, ih, Ne.symm ha]

theorem map_fst_dictSet {κ β : Type} [DecidableEq κ] (d : List (κ × β)) (k : κ) (v : β) :
    (dictSet d k v).map Prod.fst =
      if (dictGet d k).isSome then d.map Prod.fst else d.map Prod.fst ++ [k] := by
  induction d with
  | nil => simp [dictGet, dictSet]
  | cons p d ih =>
    obtain ⟨a, b⟩ := p
    by_cases ha : a = k
    · subst ha
      simp [dictGet, dictSet]
    · simp only [dictSet, if_neg ha, List.map_cons, dictGet, ih]
      by_cases hs : (dictGet d k).isSome <;> simp [hs, ha]

/-! ## Lemmas about the table model -/

variable {α : Type} [DecidableEq α]

omit [DecidableEq α] in
theorem dictGet_applyAssigns_of_ne (row : Row α) (assigns : List (String × α)) (c : String)
    (h : ∀ p ∈ assigns, p.1 ≠ c) :
    dictGet (applyAssigns row assigns) c = dictGet row c := by
  induction assigns generalizing row with
  | nil => rfl
  | cons p assigns ih =>
    have h1 : p.1 ≠ c := h p (List.mem_cons_self p assigns)
    have h2 : ∀ q ∈ assigns, q.1 ≠ c := fun q hq => h q (List.mem_cons_of_mem p hq)
    have hstep : applyAssigns row (p :: assigns) = applyAssigns (dictSet row p.1 p.2) assigns := by
      simp [applyAssigns]
    rw [hstep, ih (dictSet row p.1 p.2) h2, dictGet_dictSet_ne row p.1 c p.2 (Ne.symm h1)]

theorem rowMatches_applyAssigns (pk : String) (k : α) (row : Row α)
    (assigns : List (String × α)) (h : ∀ p ∈ assigns, p.1 ≠ pk) :
    rowMatches pk k (applyAssigns row assigns) = rowMatches pk k row := by
  simp [rowMatches, dictGet_applyAssigns_of_ne row assigns pk h]

theorem dbUpdate_cons (pk : String) (row : Row α) (db : DB α) (k : α)
    (assigns : List (String × α)) :
    dbUpdate pk (row :: db) k assigns =
      (if rowMatches pk k row then applyAssigns row assigns else row) ::
        dbUpdate pk db k assigns := by
  simp [dbUpdate]

theorem dbUpdate_length (pk : String) (db : DB α) (k : α) (assigns : List (String × α)) :
    (dbUpdate pk db k assigns).length = db.length := by
  simp [dbUpdate]

theorem dbFetch_dbUpdate_self (pk : String) (db : DB α) (k : α)
    (assigns : List (String × α)) (r : Row α)
    (hpk : ∀ p ∈ assigns, p.1 ≠ pk) (h : dbFetch pk db k = some r) :
    dbFetch pk (dbUpdate pk db k assigns) k = some (applyAssigns r assigns) := by
  induction db with
  | nil => simp [dbFetch] at h
  | cons row db ih =>
    rw [dbUpdate_cons]
    by_cases hm : rowMatches pk k row
    · rw [dbFetch, List.find?_cons_of_pos _ hm] at h
      have hr : row = r := by simpa using h
      rw [if_pos hm, dbFetch,
        List.find?_cons_of_pos _ (by rw [rowMatches_applyAssigns pk k row assigns hpk]; exact hm),
        hr]
    · rw [dbFetch, List.find?_cons_of_neg _ hm] at h
      rw [if_neg hm, dbFetch, List.find?_cons_of_neg _ hm]
      exact ih h

theorem dbFetch_dbUpdate_ne (pk : String) (db : DB α) (k k' : α)
    (assigns : List (String × α))
    (hpk : ∀ p ∈ assigns, p.1 ≠ pk) (hne : k ≠ k') :
    dbFetch pk (dbUpdate pk db k' assigns) k = dbFetch pk db k := by
  induction db with
  | nil => rfl
  | cons row db ih =>
    rw [dbUpdate_cons]
    by_cases hm : rowMatches pk k' row
    · have hget : dictGet row pk = some k' := by
        have := of_decide_eq_true hm
        exact this
      have hk : rowMatches pk k row = false := by
        simp [rowMatches, hget]
        exact fun hc => hne hc.symm
      have hk2 : rowMatches pk k (applyAssigns row assigns) = false := by
        rw [rowMatches_applyAssigns pk k row assigns hpk]; exact hk
      rw [if_pos hm, dbFetch, List.find?_cons_of_neg _ (by simp [hk2]),
        dbFetch, List.find?_cons_of_neg _ (by simp [hk])]
      exact ih
    · rw [if_neg hm]
      by_cases hk : rowMatches pk k row
      · rw [dbFetch, List.find?_cons_of_pos _ hk, dbFetch, List.find?_cons_of_pos _ hk]
      · rw [dbFetch, List.find?_cons_of_neg _ hk, dbFetch, List.find?_cons_of_neg _ hk]
        exact ih

theorem dbFetch_none_dbUpdate (pk : String) (db : DB α) (k k' : α)
    (assigns : List (String × α))
    (hpk : ∀ p ∈ assigns, p.1 ≠ pk) (h : dbFetch pk db k = none) :
    dbFetch pk (dbUpdate pk db k' assigns) k = none := by
  induction db with
  | nil => rfl
  | cons row db ih =>
    by_cases hk : rowMatches pk k row
    · rw [dbFetch, List.find?_cons_of_pos _ hk] at h
      exact absurd h (by simp)
    · rw [dbFetch, List.find?_cons_of_neg _ hk] at h
      rw [dbUpdate_cons]
      by_cases hm : rowMatches pk k' row
      · have hk2 : rowMatches pk k (applyAssigns row assigns) = false := by
          rw [rowMatches_applyAssigns pk k row assigns hpk]
          exact Bool.eq_false_iff.mpr hk
        rw [if_pos hm, dbFetch, List.find?_cons_of_neg _ (by simp [hk2])]
        exact ih h
      · rw [if_neg hm, dbFetch, List.find?_cons_of_neg _ hk]
        exact ih h

theorem pivotGetRow_keepTuples (t : Table α) (db : DB α) (cols : List String) (k : α) :
    pivotGetRow t db cols true k = .ok (rowResultOf t db cols true k) := by
  simp [pivotGetRow]

theorem pivotGetLoop_trace_single (t : Table α) (db : DB α) (cols : List String)
    (kt : Bool) (k : α) :
    (pivotGetLoop t db cols kt [k]).2 = [.selectCols cols [k]] := by
  cases h : pivotGetRow t db cols kt k <;> simp [pivotGetLoop, h]

theorem pivot_len_single (t : Table α) (db : DB α) (k : α) :
    Pivot.len (⟨t, [k]⟩ : Pivot α) db = if (dbFetch t.pk db k).isSome then 1 else 0 := by
  cases h : dbFetch t.pk db k <;>
    simp [Pivot.len, Pivot.getitem, pivotGetLoop, pivotGetRow, rowResultOf, normCols,
      Except.map, h]

theorem probe_trace (t : Table α) (db : DB α) (k : α) :
    (Pivot.getitem (⟨t, [k]⟩ : Pivot α) db (.single t.pk) true).2 =
      [.selectCols [t.pk] [k]] := by
  simp [Pivot.getitem, normCols, pivotGetLoop_trace_single]

/-! ## Claim theorems -/

omit [DecidableEq α] in
/-- C8: `Table.__getitem__` returns a Pivot bound to exactly the given keys in
the given order without issuing any database statement, and a single non-tuple
key is normalized to a one-element key sequence. -/
theorem table_getitem_pure (t : Table α) (ks : List α) (k : α) :
    Table.getitem t (.tup ks) = ((⟨t, ks⟩ : Pivot α), ([] : List (Stmt α))) ∧
    Table.getitem t (.single k) = ((⟨t, [k]⟩ : Pivot α), ([] : List (Stmt α))) :=
  ⟨rfl, rfl⟩

/-- C1 counterexample: with `insert_only = true` and the key already present,
`Table.__setitem__` takes the insert path, the INSERT raises a duplicate-key
error from the driver, and no commit is issued — contradicting the claim that
this path "issues an INSERT ... and commits". -/
theorem table_set_insert_only_no_commit :
    (Table.setitem (⟨"t", "id", true⟩ : Table ℕ) [[("id", 5)]] 5 [("c", 7)]).1 =
      .error (.operationalError "duplicate entry for primary key") ∧
    Stmt.commit ∉ (Table.setitem (⟨"t", "id", true⟩ : Table ℕ) [[("id", 5)]] 5 [("c", 7)]).2.2.2 :=
  ⟨rfl, by decide⟩

/-- C1 (amended): for every key and non-empty `values` mapping,
`Table.__setitem__` first issues a single-column primary-key existence probe;
if the key exists and `insert_only` is false it issues an UPDATE of exactly
the given columns keyed by the primary key and commits; if the key does not
exist it issues an INSERT that includes the primary-key column and commits;
if `insert_only` is true and the key exists, it issues the INSERT, which
fails with a constraint error, and nothing is committed. -/
theorem table_set_algorithm (t : Table α) (db : DB α) (key : α) (values : Row α)
    (_hne : values ≠ []) :
    ((dbFetch t.pk db key).isSome → t.insert_only = false →
      Table.setitem t db key values =
        (.ok (), dbUpdate t.pk db key values, values,
          [.selectCols [t.pk] [key],
           .update (values.map Prod.fst) (values.map Prod.snd ++ [key]), .commit])) ∧
    (dbFetch t.pk db key = none →
      Table.setitem t db key values =
        (.ok (), db ++ [dictSet values t.pk key], dictSet values t.pk key,
          [.selectCols [t.pk] [key],
           .insert ((dictSet values t.pk key).map Prod.fst)
             ((dictSet values t.pk key).map Prod.snd), .commit]) ∧
      t.pk ∈ (dictSet values t.pk key).map Prod.fst) ∧
    ((dbFetch t.pk db key).isSome → t.insert_only = true →
      (∃ e, (Table.setitem t db key values).1 = .error e) ∧
      Stmt.commit ∉ (Table.setitem t db key values).2.2.2) := by
  refine ⟨?_, ?_, ?_⟩
  · intro hsome hio
    have hcond : Pivot.len (⟨t, [key]⟩ : Pivot α) db ≠ 0 ∧ t.insert_only = false := by
      rw [pivot_len_single, if_pos hsome]
      exact ⟨one_ne_zero, hio⟩
    simp only [Table.setitem, if_pos hcond, probe_trace]
    simp
  · intro hnone
    have hcond : ¬(Pivot.len (⟨t, [key]⟩ : Pivot α) db ≠ 0 ∧ t.insert_only = false) := by
      rw [pivot_len_single, hnone]
      simp
    have hget : dictGet (dictSet values t.pk key) t.pk = some key :=
      dictGet_dictSet_self values t.pk key
    have hins : dbInsert t.pk db (dictSet values t.pk key) =
        .ok (db ++ [dictSet values t.pk key]) := by
      simp only [dbInsert, hget, hnone]
      simp
    constructor
    · simp only [Table.setitem, if_neg hcond, probe_trace, hins]
      simp
    · exact (dictGet_isSome_iff_mem _ _).mp (by rw [hget]; rfl)
  · intro hsome hio
    have hcond : ¬(Pivot.len (⟨t, [key]⟩ : Pivot α) db ≠ 0 ∧ t.insert_only = false) := by
      rw [hio]
      simp
    have hget : dictGet (dictSet values t.pk key) t.pk = some key :=
      dictGet_dictSet_self values t.pk key
    have hins : dbInsert t.pk db (dictSet values t.pk key) =
        .error (.operationalError "duplicate entry for primary key") := by
      simp only [dbInsert, hget, hsome]
      simp
    constructor
    · refine ⟨.operationalError "duplicate entry for primary key", ?_⟩
      simp only [Table.setitem, if_neg hcond, hins]
    · simp only [Table.setitem, if_neg hcond, hins, probe_trace]
      simp

/-- Witness for C1 (amended) at a concrete input: an existing key with
`insert_only = false` takes the UPDATE-and-commit path. -/
theorem table_set_algorithm_witness :
    Table.setitem (⟨"t", "id", false⟩ : Table ℕ) [[("id", 1)]] 1 [("q", 9)] =
      (.ok (), dbUpdate "id" [[("id", 1)]] 1 [("q", 9)], [("q", 9)],
        [.selectCols ["id"] [1], .update ["q"] [9, 1], .commit]) :=
  (table_set_algorithm (⟨"t", "id", false⟩ : Table ℕ) [[("id", 1)]] 1 [("q", 9)]
    (by decide)).1 (by decide) rfl

/-- C7 counterexample: the INSERT generated for a fresh key names the given
value columns first and the primary-key column last (`values[self.pk] = key`
appends to the Python dict), i.e. `["quantity", "id"]`, not pk-first as the
claim states. -/
theorem table_set_insert_pk_not_first :
    (Table.setitem (⟨"t", "id", false⟩ : Table ℕ) [] 7 [("quantity", 4)]).2.2.2[1]? =
      some (.insert ["quantity", "id"] [4, 7]) ∧
    (["quantity", "id"] : List String).head? ≠ some "id" :=
  ⟨rfl, by decide⟩

/-- C7 (amended): on the insert path, when the primary-key column is not among
the given columns, the generated INSERT names the given value columns first
(in mapping order) followed by the primary-key column last, binds the
parameters in that same order (the values, then the key), and has one
positional placeholder per column (equal lengths). -/
theorem table_set_insert_stmt (t : Table α) (db : DB α) (key : α) (values : Row α)
    (hpath : dbFetch t.pk db key = none ∨ t.insert_only = true)
    (hpk : t.pk ∉ values.map Prod.fst) :
    (Table.setitem t db key values).2.2.2[1]? =
      some (.insert (values.map Prod.fst ++ [t.pk]) (values.map Prod.snd ++ [key])) ∧
    (values.map Prod.fst ++ [t.pk]).length = (values.map Prod.snd ++ [key]).length := by
  have hcond : ¬(Pivot.len (⟨t, [key]⟩ : Pivot α) db ≠ 0 ∧ t.insert_only = false) := by
    rcases hpath with hnone | hio
    · rw [pivot_len_single, hnone]
      simp
    · rw [hio]
      simp
  have hget : dictGet values t.pk = none := by
    rw [← Option.not_isSome_iff_eq_none]
    intro hs
    exact hpk ((dictGet_isSome_iff_mem values t.pk).mp hs)
  have hset : dictSet values t.pk key = values ++ [(t.pk, key)] :=
    dictSet_of_get_none values t.pk key hget
  constructor
  · cases hi : dbInsert t.pk db (values ++ [(t.pk, key)]) <;>
      simp [Table.setitem, if_neg hcond, hset, hi, probe_trace]
  · simp

/-- Witness for C7 (amended) at a concrete input. -/
theorem table_set_insert_stmt_witness :
    (Table.setitem (⟨"t", "id", false⟩ : Table ℕ) [] 7 [("quantity", 4)]).2.2.2[1]? =
      some (.insert (([("quantity", 4)] : Row ℕ).map Prod.fst ++ ["id"])
        (([("quantity", 4)] : Row ℕ).map Prod.snd ++ [7])) :=
  (table_set_insert_stmt (⟨"t", "id", false⟩ : Table ℕ) [] 7 [("quantity", 4)]
    (Or.inl rfl) (by decide)).1

/-- C9 counterexample: when the caller's mapping already contains the entry
`pk ↦ key`, the insert-path mutation `values[self.pk] = key` overwrites it
with the same value and the mapping IS left unchanged by the call. -/
theorem table_set_values_unchanged :
    (Table.setitem (⟨"t", "id", true⟩ : Table ℕ) [] 7 [("id", 7)]).2.2.1 = [("id", 7)] :=
  rfl

/-- C9 (amended): on the insert path `Table.__setitem__` mutates the
caller-supplied mapping in place by setting the primary-key column to the key
(dict assignment `values[self.pk] = key`): when the primary-key column was
absent, the entry `(pk, key)` is appended at the end and the mapping is
changed; when the mapping already bound the primary-key column to the key, it
is left unchanged. -/
theorem table_set_mutates_values (t : Table α) (db : DB α) (key : α) (values : Row α)
    (hpath : dbFetch t.pk db key = none ∨ t.insert_only = true) :
    (Table.setitem t db key values).2.2.1 = dictSet values t.pk key ∧
    (dictGet values t.pk = none →
      (Table.setitem t db key values).2.2.1 = values ++ [(t.pk, key)] ∧
      (Table.setitem t db key values).2.2.1 ≠ values) ∧
    (dictGet values t.pk = some key →
      (Table.setitem t db key values).2.2.1 = values) := by
  have hcond : ¬(Pivot.len (⟨t, [key]⟩ : Pivot α) db ≠ 0 ∧ t.insert_only = false) := by
    rcases hpath with hnone | hio
    · rw [pivot_len_single, hnone]
      simp
    · rw [hio]
      simp
  have hval : (Table.setitem t db key values).2.2.1 = dictSet values t.pk key := by
    cases hi : dbInsert t.pk db (dictSet values t.pk key) <;>
      simp [Table.setitem, if_neg hcond, hi]
  refine ⟨hval, fun hnone => ⟨?_, ?_⟩, fun hsome => ?_⟩
  · rw [hval, dictSet_of_get_none values t.pk key hnone]
  · rw [hval]
    exact dictSet_ne_of_get_none values t.pk key hnone
  · rw [hval, dictSet_of_get_self values t.pk key hsome]

/-- Witness for C9 (amended) at a concrete input. -/
theorem table_set_mutates_values_witness :
    (Table.setitem (⟨"t", "id", true⟩ : Table ℕ) [] 3 [("q", 1)]).2.2.1 =
      dictSet [("q", 1)] "id" 3 :=
  (table_set_mutates_values (⟨"t", "id", true⟩ : Table ℕ) [] 3 [("q", 1)] (Or.inl rfl)).1

/-- C4: at the failing input — a single-column read of a missing row with
`keep_tuples=False` — the code raises `AttributeError`: `Table.__init__`
never stores its `module` argument, so evaluating `self.table.module` in the
intended `raise self.table.module.OperationalError('row ... does not exist')`
fails before the missing-row error can be constructed.  A multi-column read
of the same missing key returns `None` for that key instead of raising, as
the claim says. -/
theorem pivot_get_missing_row_error :
    (Pivot.getitem (⟨⟨"t", "id", false⟩, [3]⟩ : Pivot ℕ) [[("id", 1)]]
        (.single "q") false).1 =
      .error (.attributeError "Table object has no attribute module") ∧
    (Pivot.getitem (⟨⟨"t", "id", false⟩, [3]⟩ : Pivot ℕ) [[("id", 1)]]
        (.tup ["q", "d"]) false).1 =
      .ok (.one .null) :=
  ⟨rfl, rfl⟩

/-- C5: at the failing input — a Pivot over two keys whose rows BOTH exist —
`Pivot.__len__` returns 1, not 2: `__getitem__` returns a tuple of per-key
rows, `isinstance(rows, list)` is false for a tuple, and a non-`None` value
falls through to `return 1`.  The number of the Pivot's keys that resolve to
an existing row at this input is 2. -/
theorem pivot_len_miscounts :
    Pivot.len (⟨⟨"t", "id", false⟩, [1, 2]⟩ : Pivot ℕ) [[("id", 1)], [("id", 2)]] = 1 ∧
    (([1, 2] : List ℕ).filter
        (fun k => (dbFetch "id" [[("id", 1)], [("id", 2)]] k).isSome)).length = 2 :=
  ⟨rfl, rfl⟩

theorem pivotGetLoop_ok (t : Table α) (db : DB α) (cols : List String) (kt : Bool)
    (ks : List α)
    (h : ∀ k ∈ ks, ¬(kt = false ∧ cols.length = 1 ∧ dbFetch t.pk db k = none)) :
    pivotGetLoop t db cols kt ks =
      (.ok (ks.map (rowResultOf t db cols kt)),
       ks.map (fun k => .selectCols cols [k])) := by
  induction ks with
  | nil => rfl
  | cons k ks ih =>
    have hrow : pivotGetRow t db cols kt k = .ok (rowResultOf t db cols kt k) := by
      rw [pivotGetRow, if_neg (h k (List.mem_cons_self k ks))]
    have hrest := ih (fun k' hk' => h k' (List.mem_cons_of_mem k hk'))
    simp [pivotGetLoop, hrow, hrest, Except.map]

/-- C2: `Pivot.__getitem__` returns `None` for zero keys, the single per-key
result directly (no wrapping sequence) for exactly one key, and the ordered
sequence of per-key results for two or more keys; and when a single column is
requested with `keep_tuples=False`, each per-key row whose row exists is
unwrapped to the scalar cell value.  Hypothesis: no key hits the missing-row
raise (possible only for a single-column projection with
`keep_tuples=False`). -/
theorem pivot_get_result_shape (p : Pivot α) (db : DB α) (cols : ColsArg) (kt : Bool)
    (h : ∀ k ∈ p.keys,
      ¬(kt = false ∧ (normCols cols).length = 1 ∧ dbFetch p.table.pk db k = none)) :
    (p.keys = [] → (Pivot.getitem p db cols kt).1 = .ok .null) ∧
    (∀ k, p.keys = [k] →
      (Pivot.getitem p db cols kt).1 =
        .ok (.one (rowResultOf p.table db (normCols cols) kt k))) ∧
    (2 ≤ p.keys.length →
      (Pivot.getitem p db cols kt).1 =
        .ok (.many (p.keys.map (rowResultOf p.table db (normCols cols) kt)))) ∧
    (∀ c k row, normCols cols = [c] → kt = false → dbFetch p.table.pk db k = some row →
      rowResultOf p.table db (normCols cols) kt k = .scalar (dictGet row c)) := by
  obtain ⟨tb, ks⟩ := p
  simp only at h ⊢
  refine ⟨?_, ?_, ?_, ?_⟩
  · intro hks
    subst hks
    rfl
  · intro k hks
    subst hks
    rw [Pivot.getitem, pivotGetLoop_ok tb db (normCols cols) kt [k] h]
    rfl
  · intro hlen
    rw [Pivot.getitem, pivotGetLoop_ok tb db (normCols cols) kt ks h]
    match ks, hlen with
    | k1 :: k2 :: rest, _ => rfl
  · intro c k row hc hkt hrow
    rw [hc, rowResultOf, hrow]
    simp [hkt, List.headI]

/-- Witness for C2 at a concrete input: two keys and two columns give the
ordered sequence of per-key row tuples. -/
theorem pivot_get_result_shape_witness :
    (Pivot.getitem (⟨⟨"t", "id", false⟩, [1, 2]⟩ : Pivot ℕ) [[("id", 1), ("q", 5)]]
        (.tup ["q", "d"]) false).1 =
      .ok (.many (([1, 2] : List ℕ).map
        (rowResultOf (⟨"t", "id", false⟩ : Table ℕ) [[("id", 1), ("q", 5)]]
          (normCols (.tup ["q", "d"])) false))) :=
  (pivot_get_result_shape (⟨⟨"t", "id", false⟩, [1, 2]⟩ : Pivot ℕ) [[("id", 1), ("q", 5)]]
    (.tup ["q", "d"]) false (by decide)).2.2.1 (by decide)

theorem dbFetch_none_foldl (pk : String) (rows : List (List α × α)) (cols : List String)
    (db : DB α) (k : α) (hpk : pk ∉ cols) (h : dbFetch pk db k = none) :
    dbFetch pk (rows.foldl (fun d rk => dbUpdate pk d rk.2 (cols.zip rk.1)) db) k = none := by
  induction rows generalizing db with
  | nil => exact h
  | cons rk rows ih =>
    rw [List.foldl_cons]
    apply ih
    apply dbFetch_none_dbUpdate
    · intro q hq hc
      apply hpk
      rw [← hc]
      obtain ⟨a, b⟩ := q
      exact (List.of_mem_zip hq).1
    · exact h

theorem foldl_dbUpdate_length (pk : String) (rows : List (List α × α)) (cols : List String)
    (db : DB α) :
    (rows.foldl (fun d rk => dbUpdate pk d rk.2 (cols.zip rk.1)) db).length = db.length := by
  induction rows generalizing db with
  | nil => rfl
  | cons rk rows ih => rw [List.foldl_cons, ih, dbUpdate_length]

/-- C10: `Pivot.__setitem__` never inserts rows: given well-shaped values and
value columns that do not include the primary-key column, the call succeeds,
the row count of the table is preserved, and every key of the Pivot that has
no existing row still has no row afterwards (its UPDATE execution matched
zero rows). -/
theorem pivot_set_never_inserts (p : Pivot α) (db : DB α) (cols : ColsArg) (values : Py α)
    (rows : List (List α × α)) (hrows : pivotSetRows p.keys cols values = some rows)
    (hpk : p.table.pk ∉ normCols cols) (k : α) (_hk : k ∈ p.keys)
    (hmiss : dbFetch p.table.pk db k = none) :
    (Pivot.setitem p db cols values).1 = .ok () ∧
    dbFetch p.table.pk (Pivot.setitem p db cols values).2.1 k = none ∧
    (Pivot.setitem p db cols values).2.1.length = db.length := by
  refine ⟨?_, ?_, ?_⟩
  · simp [Pivot.setitem, hrows]
  · simp only [Pivot.setitem, hrows]
    exact dbFetch_none_foldl p.table.pk rows (normCols cols) db k hpk hmiss
  · simp only [Pivot.setitem, hrows]
    exact foldl_dbUpdate_length p.table.pk rows (normCols cols) db

/-- Witness for C10 at a concrete input: writing a column of a Pivot over a
key with no row leaves the table without a row for that key. -/
theorem pivot_set_never_inserts_witness :
    dbFetch "id" (Pivot.setitem (⟨⟨"t", "id", false⟩, [9]⟩ : Pivot ℕ) [[("id", 1)]]
        (.single "q") (.atom 5)).2.1 9 = none :=
  (pivot_set_never_inserts (⟨⟨"t", "id", false⟩, [9]⟩ : Pivot ℕ) [[("id", 1)]]
    (.single "q") (.atom 5) [([5], 9)] rfl (by decide) 9 (by decide) (by decide)).2.1

/-- C3: round-trip for a Pivot over two distinct keys whose rows exist and two
distinct non-primary-key columns: `pivot[c1,c2] = ((a,b),(c,d))` followed by
`pivot[c1,c2]` succeeds and returns `((a,b),(c,d))` in the same key order. -/
theorem pivot_set_get_roundtrip (t : Table α) (db : DB α) (k1 k2 a b c d : α)
    (c1 c2 : String) (r1 r2 : Row α)
    (hk : k1 ≠ k2) (hcc : c1 ≠ c2) (hc1 : c1 ≠ t.pk) (hc2 : c2 ≠ t.pk)
    (h1 : dbFetch t.pk db k1 = some r1) (h2 : dbFetch t.pk db k2 = some r2) :
    (Pivot.setitem (⟨t, [k1, k2]⟩ : Pivot α) db (.tup [c1, c2])
        (.tupl [.tupl [.atom a, .atom b], .tupl [.atom c, .atom d]])).1 = .ok () ∧
    (Pivot.getitem (⟨t, [k1, k2]⟩ : Pivot α)
        (Pivot.setitem (⟨t, [k1, k2]⟩ : Pivot α) db (.tup [c1, c2])
          (.tupl [.tupl [.atom a, .atom b], .tupl [.atom c, .atom d]])).2.1
        (.tup [c1, c2]) false).1 =
      .ok (.many [.tup [some a, some b], .tup [some c, some d]]) := by
  have hrows : pivotSetRows [k1, k2] (.tup [c1, c2])
      (.tupl [.tupl [.atom a, .atom b], .tupl [.atom c, .atom d]]) =
      some [([a, b], k1), ([c, d], k2)] := rfl
  have hpre1 : ∀ q ∈ [(c1, a), (c2, b)], q.1 ≠ t.pk := by
    intro q hq
    simp only [List.mem_cons, List.not_mem_nil, or_false] at hq
    rcases hq with rfl | rfl
    · exact hc1
    · exact hc2
  have hpre2 : ∀ q ∈ [(c1, c), (c2, d)], q.1 ≠ t.pk := by
    intro q hq
    simp only [List.mem_cons, List.not_mem_nil, or_false] at hq
    rcases hq with rfl | rfl
    · exact hc1
    · exact hc2
  have e1 := dbFetch_dbUpdate_self t.pk db k1 [(c1, a), (c2, b)] r1 hpre1 h1
  have e2 : dbFetch t.pk (dbUpdate t.pk db k1 [(c1, a), (c2, b)]) k2 = some r2 := by
    rw [dbFetch_dbUpdate_ne t.pk db k2 k1 [(c1, a), (c2, b)] hpre1 (Ne.symm hk)]
    exact h2
  have f2 := dbFetch_dbUpdate_self t.pk (dbUpdate t.pk db k1 [(c1, a), (c2, b)]) k2
    [(c1, c), (c2, d)] r2 hpre2 e2
  have f1 : dbFetch t.pk
      (dbUpdate t.pk (dbUpdate t.pk db k1 [(c1, a), (c2, b)]) k2 [(c1, c), (c2, d)]) k1 =
      some (applyAssigns r1 [(c1, a), (c2, b)]) := by
    rw [dbFetch_dbUpdate_ne t.pk _ k1 k2 [(c1, c), (c2, d)] hpre2 hk]
    exact e1
  have happ1 : applyAssigns r1 [(c1, a), (c2, b)] = dictSet (dictSet r1 c1 a) c2 b := by
    simp [applyAssigns]
  have happ2 : applyAssigns r2 [(c1, c), (c2, d)] = dictSet (dictSet r2 c1 c) c2 d := by
    simp [applyAssigns]
  have g1a : dictGet (applyAssigns r1 [(c1, a), (c2, b)]) c1 = some a := by
    rw [happ1, dictGet_dictSet_ne (dictSet r1 c1 a) c2 c1 b hcc, dictGet_dictSet_self]
  have g1b : dictGet (applyAssigns r1 [(c1, a), (c2, b)]) c2 = some b := by
    rw [happ1, dictGet_dictSet_self]
  have g2a : dictGet (applyAssigns r2 [(c1, c), (c2, d)]) c1 = some c := by
    rw [happ2, dictGet_dictSet_ne (dictSet r2 c1 c) c2 c1 d hcc, dictGet_dictSet_self]
  have g2b : dictGet (applyAssigns r2 [(c1, c), (c2, d)]) c2 = some d := by
    rw [happ2, dictGet_dictSet_self]
  have hsetdb : (Pivot.setitem (⟨t, [k1, k2]⟩ : Pivot α) db (.tup [c1, c2])
      (.tupl [.tupl [.atom a, .atom b], .tupl [.atom c, .atom d]])).2.1 =
      dbUpdate t.pk (dbUpdate t.pk db k1 [(c1, a), (c2, b)]) k2 [(c1, c), (c2, d)] := by
    simp [Pivot.setitem, hrows, normCols, List.zip]
  constructor
  · simp [Pivot.setitem, hrows]
  · rw [hsetdb, Pivot.getitem, pivotGetLoop_ok _ _ _ _ _ (by intro k hk'; simp [normCols])]
    simp [Except.map, rowResultOf, normCols, f1, f2, g1a, g1b, g2a, g2b]

/-- Witness for C3 at a concrete input. -/
theorem pivot_set_get_roundtrip_witness :
    (Pivot.getitem (⟨⟨"t", "id", false⟩, [1, 2]⟩ : Pivot ℕ)
        (Pivot.setitem (⟨⟨"t", "id", false⟩, [1, 2]⟩ : Pivot ℕ) [[("id", 1)], [("id", 2)]]
          (.tup ["x", "y"])
          (.tupl [.tupl [.atom 10, .atom 20], .tupl [.atom 30, .atom 40]])).2.1
        (.tup ["x", "y"]) false).1 =
      .ok (.many [.tup [some 10, some 20], .tup [some 30, some 40]]) :=
  (pivot_set_get_roundtrip (⟨"t", "id", false⟩ : Table ℕ) [[("id", 1)], [("id", 2)]]
    1 2 10 20 30 40 "x" "y" [("id", 1)] [("id", 2)]
    (by decide) (by decide) (by decide) (by decide) (by decide) (by decide)).2

theorem dictGet_toDictRows (t : Table α) (db : DB α) (ks : List α)
    (acc : List (α × Row α)) (k : α) :
    dictGet (toDictRows t db ks acc) k =
      if k ∈ ks then some (toDictRow t db k) else dictGet acc k := by
  induction ks generalizing acc with
  | nil => simp [toDictRows]
  | cons k0 ks ih =>
    rw [toDictRows, ih]
    by_cases hks : k ∈ ks
    · simp [hks]
    · by_cases hk0 : k = k0
      · subst hk0
        simp [hks, dictGet_dictSet_self]
      · simp [hks, hk0, dictGet_dictSet_ne acc k0 k (toDictRow t db k0) hk0]

theorem map_fst_toDictRows (t : Table α) (db : DB α) (ks : List α)
    (acc : List (α × Row α)) (hacc : (acc.map Prod.fst).Nodup) :
    ((toDictRows t db ks acc).map Prod.fst).Nodup ∧
    ((toDictRows t db ks acc).map Prod.fst).toFinset =
      (acc.map Prod.fst).toFinset ∪ ks.toFinset := by
  induction ks generalizing acc with
  | nil => simp [toDictRows, hacc]
  | cons k0 ks ih =>
    rw [toDictRows]
    have hset := map_fst_dictSet acc k0 (toDictRow t db k0)
    by_cases hmem : (dictGet acc k0).isSome
    · have hkeys : (dictSet acc k0 (toDictRow t db k0)).map Prod.fst = acc.map Prod.fst := by
        rw [hset, if_pos hmem]
      obtain ⟨hn, hf⟩ := ih (dictSet acc k0 (toDictRow t db k0)) (by rw [hkeys]; exact hacc)
      refine ⟨hn, ?_⟩
      rw [hf, hkeys, List.toFinset_cons, Finset.union_insert, Finset.insert_eq_self.mpr]
      exact Finset.mem_union_left _
        (List.mem_toFinset.mpr ((dictGet_isSome_iff_mem acc k0).mp hmem))
    · have hkeys : (dictSet acc k0 (toDictRow t db k0)).map Prod.fst =
          acc.map Prod.fst ++ [k0] := by
        rw [hset, if_neg hmem]
      have hnotin : k0 ∉ acc.map Prod.fst := fun hc =>
        hmem ((dictGet_isSome_iff_mem acc k0).mpr hc)
      have hnodup : (acc.map Prod.fst ++ [k0]).Nodup := by
        rw [List.nodup_append]
        exact ⟨hacc, List.nodup_singleton k0,
          fun a ha hb => hnotin (List.mem_singleton.mp hb ▸ ha)⟩
      obtain ⟨hn, hf⟩ := ih (dictSet acc k0 (toDictRow t db k0)) (by rw [hkeys]; exact hnodup)
      refine ⟨hn, ?_⟩
      rw [hf, hkeys]
      ext a
      simp only [List.toFinset_append, List.toFinset_cons, Finset.mem_union,
        Finset.mem_insert, List.mem_toFinset, List.toFinset_nil, Finset.not_mem_empty]
      tauto

theorem toDictRows_length (t : Table α) (db : DB α) (ks : List α) :
    (toDictRows t db ks []).length = ks.dedup.length := by
  obtain ⟨hn, hf⟩ := map_fst_toDictRows t db ks [] (by simp)
  have h1 : (toDictRows t db ks []).length =
      ((toDictRows t db ks []).map Prod.fst).length := by simp
  rw [h1, ← List.toFinset_card_of_nodup hn, hf]
  simp [List.card_toFinset]

/-- C6 (amended): `Pivot.to_dict` builds, over the Pivot's keys, a mapping
from key to the full row without the primary-key column, missing rows mapping
to the empty mapping; it returns the single column mapping directly (not
wrapped by key) exactly when `keep_key` is false and the built mapping has
exactly one entry — i.e. the Pivot has exactly one DISTINCT key, possibly
repeated — and returns the key-to-mapping structure whenever `keep_key` is
true or the number of distinct keys differs from one. -/
theorem pivot_to_dict_spec (p : Pivot α) (db : DB α) (keepKey : Bool) :
    (∀ k ∈ p.keys,
      dictGet (toDictRows p.table db p.keys []) k = some (toDictRow p.table db k)) ∧
    (toDictRows p.table db p.keys []).length = p.keys.dedup.length ∧
    (keepKey = true ∨ p.keys.dedup.length ≠ 1 →
      Pivot.toDict p db keepKey = .keyed (toDictRows p.table db p.keys [])) ∧
    (keepKey = false → p.keys.dedup.length = 1 →
      ∀ k ∈ p.keys, Pivot.toDict p db keepKey = .flat (toDictRow p.table db k)) := by
  refine ⟨?_, toDictRows_length p.table db p.keys, ?_, ?_⟩
  · intro k hk
    rw [dictGet_toDictRows p.table db p.keys [] k, if_pos hk]
  · intro hcond
    rcases hcond with hkk | hlen
    · simp [Pivot.toDict, hkk]
    · have hlen' : (toDictRows p.table db p.keys []).length ≠ 1 := by
        rw [toDictRows_length]
        exact hlen
      cases hkk : keepKey
      · cases hr : toDictRows p.table db p.keys [] with
        | nil => simp [Pivot.toDict, hr]
        | cons x r =>
          cases r with
          | nil =>
            rw [hr] at hlen'
            simp at hlen'
          | cons y r' => simp [Pivot.toDict, hr]
      · simp [Pivot.toDict]
  · intro hkk hlen k hk
    have h1 : dictGet (toDictRows p.table db p.keys []) k =
        some (toDictRow p.table db k) := by
      rw [dictGet_toDictRows p.table db p.keys [] k, if_pos hk]
    have hlen' : (toDictRows p.table db p.keys []).length = 1 := by
      rw [toDictRows_length]
      exact hlen
    cases hr : toDictRows p.table db p.keys [] with
    | nil =>
      rw [hr] at hlen'
      simp at hlen'
    | cons x r =>
      cases r with
      | cons y r' =>
        rw [hr] at hlen'
        simp at hlen'
      | nil =>
        obtain ⟨k0, m0⟩ := x
        rw [hr] at h1
        by_cases hk0 : k0 = k
        · simp only [dictGet, if_pos hk0] at h1
          have hm : m0 = toDictRow p.table db k := by simpa using h1
          simp [Pivot.toDict, hkk, hr, hm]
        · simp [dictGet, hk0] at h1

/-- C6 counterexample: a Pivot over TWO keys `[1, 1]` (the key list may
contain duplicates) with `keep_key=false` returns the flat column mapping,
not a key-to-mapping structure, because the built `rows` dict has a single
entry. -/
theorem pivot_to_dict_duplicate_keys_flat :
    Pivot.toDict (⟨⟨"t", "id", false⟩, [1, 1]⟩ : Pivot ℕ) [[("id", 1), ("q", 5)]] false =
      .flat [("q", 5)] ∧
    ([1, 1] : List ℕ).length = 2 :=
  ⟨rfl, rfl⟩

/-- Witness for C6 (amended) at a concrete input: two distinct keys give the
key-to-mapping structure. -/
theorem pivot_to_dict_spec_witness :
    Pivot.toDict (⟨⟨"t", "id", false⟩, [1, 2]⟩ : Pivot ℕ) [[("id", 1), ("q", 5)]] false =
      .keyed (toDictRows (⟨"t", "id", false⟩ : Table ℕ) [[("id", 1), ("q", 5)]] [1, 2] []) :=
  (pivot_to_dict_spec (⟨⟨"t", "id", false⟩, [1, 2]⟩ : Pivot ℕ) [[("id", 1), ("q", 5)]]
    false).2.2.1 (Or.inr (by decide))

end DbDict
